import Mathlib

/-!
Verification of the singly linked list variants of this repository.

Three implementations are modelled:

* HeaderList: the C++ implementation belonging to
  10-data-structures/02-linked-list (the implementation file of the
  LinkedList declared in the 02-linked-list header).  Its chain of nodes
  is embedded as the list of values reachable from head, together with
  the cached length field (an int in the source, modelled as Int).  In
  this variant every operation keeps the tail pointer on the last
  reachable node, so the embedding keeps no separate tail component.
  The console is silent in every operation except printList, so
  deleteFirst and deleteLast also return the list of console lines they
  emit (always empty) to record that they report nothing.

* JsList: the JavaScript class in
  10-data-structures/02-linked-list/01-linked-list-implementation-.js.
  Its deleteFirst and deleteLast return the removed value (null,
  modelled as none, on an empty list) and emit a console warning on the
  empty list.

* BasicList: the C++ class in
  10-data-structures/arrays-vectors/basic-question.cpp.  This variant
  manipulates raw pointers and has several defects: deletePosition never
  re-targets the tail pointer, insert performs no bounds check and
  treats index equal to length minus one as appending, and
  reverseLinkedList dereferences a null pointer on the empty list.  It
  is therefore embedded with an explicit heap: nodes live at numeric
  addresses, delete marks an address as freed, and a dereference of a
  null or freed pointer yields none (a crash or undefined behaviour in
  the source).
-/

namespace HeaderList

/-- State of the canonical C++ LinkedList: the values reachable from head,
in chain order, and the cached length field. -/
structure State where
  chain : List Int
  length : Int
deriving DecidableEq

/-- The constructor: one initial node that is both head and tail, length 1. -/
def create (value : Int) : State := ⟨[value], 1⟩

/-- append: a new node is linked after tail and becomes the new tail, or
becomes the whole list when head is null; length is incremented. -/
def append (s : State) (value : Int) : State :=
  match s.chain with
  | [] => ⟨[value], s.length + 1⟩
  | _ :: _ => ⟨s.chain ++ [value], s.length + 1⟩

/-- prepend: a new node whose next is the old head becomes the head, or the
whole list when head was null; length is incremented. -/
def prepend (s : State) (value : Int) : State :=
  match s.chain with
  | [] => ⟨[value], s.length + 1⟩
  | _ :: _ => ⟨value :: s.chain, s.length + 1⟩

/-- The while loop of deleteLast: walk from head to the node before tail,
which becomes the new tail with a null next, dropping the old tail. -/
def removeLastNode : List Int → List Int
  | [] => []
  | [_] => []
  | x :: y :: rest => x :: removeLastNode (y :: rest)

/-- deleteLast: silent return on the empty list; with a single node head and
tail are cleared; otherwise the node before tail becomes the new tail.  The
second component is the console output, which this variant never produces. -/
def deleteLast (s : State) : State × List String :=
  match s.chain with
  | [] => (s, [])
  | [_] => (⟨[], s.length - 1⟩, [])
  | x :: y :: rest => (⟨removeLastNode (x :: y :: rest), s.length - 1⟩, [])

/-- deleteFirst: silent return on the empty list; otherwise head moves to the
second node (tail is cleared when the list becomes empty).  The second
component is the console output, which this variant never produces. -/
def deleteFirst (s : State) : State × List String :=
  match s.chain with
  | [] => (s, [])
  | _ :: rest => (⟨rest, s.length - 1⟩, [])

/-- The splice of insert: prev has advanced k steps from head and the new
node is linked between prev and prev.next. -/
def insertAfter : Nat → Int → List Int → List Int
  | _, v, [] => [v]
  | 0, v, x :: rest => x :: v :: rest
  | k + 1, v, x :: rest => x :: insertAfter k v rest

/-- insert(value, index): an index outside the closed interval from 0 to
length is rejected with false and no effect; index 0 delegates to prepend,
index length to append; otherwise the walk stops at node index minus one and
the new node is spliced after it. -/
def insert (s : State) (value : Int) (index : Int) : State × Bool :=
  if index < 0 ∨ index > s.length then (s, false)
  else if index = 0 then (prepend s value, true)
  else if index = s.length then (append s value, true)
  else (⟨insertAfter (index - 1).toNat value s.chain, s.length + 1⟩, true)

/-- The unlink of deletePosition: prev has advanced k steps from head and
prev.next is re-linked around the removed node. -/
def removeAfter : Nat → List Int → List Int
  | _, [] => []
  | 0, x :: rest => x :: rest.tail
  | k + 1, x :: rest => x :: removeAfter k rest

/-- deletePosition(index): an index outside the range of valid positions is
rejected with false and no effect; index 0 delegates to deleteFirst;
otherwise the node after node index minus one is unlinked (the source also
re-targets tail when the removed node was the tail, which the chain
embedding represents implicitly). -/
def deletePosition (s : State) (index : Int) : State × Bool :=
  if index < 0 ∨ index ≥ s.length then (s, false)
  else if index = 0 then ((deleteFirst s).1, true)
  else (⟨removeAfter (index - 1).toNat s.chain, s.length - 1⟩, true)

/-- The three pointer walk of reverseLinkedList: prev accumulates the nodes
whose links are already reversed while the walk consumes the rest. -/
def reverseGo : List Int → List Int → List Int
  | prev, [] => prev
  | prev, x :: rest => reverseGo (x :: prev) rest

/-- reverseLinkedList: in-place reversal; tail is re-targeted to the old
head, head to the end of the walk; length is untouched. -/
def reverseLinkedList (s : State) : State :=
  ⟨reverseGo [] s.chain, s.length⟩

/-- The mutating operations of the component, for quantifying over call
sequences. -/
inductive Op
  | append (v : Int)
  | prepend (v : Int)
  | insert (v : Int) (index : Int)
  | deleteFirst
  | deleteLast
  | deletePosition (index : Int)
  | reverse

/-- Apply one operation to a state, discarding the returned status and the
console output. -/
def applyOp (s : State) : Op → State
  | .append v => append s v
  | .prepend v => prepend s v
  | .insert v i => (insert s v i).1
  | .deleteFirst => (deleteFirst s).1
  | .deleteLast => (deleteLast s).1
  | .deletePosition i => (deletePosition s i).1
  | .reverse => reverseLinkedList s

/-- Run a sequence of operations from a state. -/
def run (ops : List Op) (s : State) : State :=
  ops.foldl applyOp s

/-- The cached length field agrees with the number of nodes reachable from
head by following next, that is with the length of the embedded chain. -/
def lengthInv (s : State) : Prop :=
  s.length = (s.chain.length : Int)

end HeaderList

namespace JsList

/-- State of the JavaScript LinkedList: the values reachable from head and
the cached length property. -/
structure State where
  chain : List Int
  length : Int
deriving DecidableEq

/-- The constructor: one initial node that is both head and tail. -/
def create (value : Int) : State := ⟨[value], 1⟩

/-- The console warning printed when deleting from an empty list. -/
def emptyWarning : String := "Warning: Cannot delete from an empty list."

/-- The traversal of deleteLast on a multi node list: the chain without its
last node, together with the value of the removed tail node. -/
def splitLast (x : Int) : List Int → List Int × Int
  | [] => ([], x)
  | y :: rest =>
    let r := splitLast y rest
    (x :: r.1, r.2)

/-- deleteLast: warns and returns null on the empty list; with a single node
head and tail are cleared and its value returned; otherwise the walk stops
before tail, which is removed and its value returned.  The components are
the new state, the returned value and the console output. -/
def deleteLast (s : State) : State × Option Int × List String :=
  match s.chain with
  | [] => (s, none, [emptyWarning])
  | [x] => (⟨[], s.length - 1⟩, some x, [])
  | x :: y :: rest =>
    let r := splitLast x (y :: rest)
    (⟨r.1, s.length - 1⟩, some r.2, [])

/-- deleteFirst: warns and returns null on the empty list; otherwise head
moves to the second node and the old head value is returned. -/
def deleteFirst (s : State) : State × Option Int × List String :=
  match s.chain with
  | [] => (s, none, [emptyWarning])
  | x :: rest => (⟨rest, s.length - 1⟩, some x, [])

end JsList

namespace BasicList

/-- One heap node: the stored int and the next pointer, an address or null. -/
structure Node where
  value : Int
  next : Option Nat
deriving DecidableEq

/-- The heap: nodes are addressed by allocation index and delete records the
address in freed.  Addresses are never reused. -/
structure Mem where
  nodes : List Node
  freed : List Nat
deriving DecidableEq

/-- The three fields of the LinkedList object. -/
structure Obj where
  head : Option Nat
  tail : Option Nat
  length : Int
deriving DecidableEq

/-- A program state: the heap and the list object. -/
structure State where
  mem : Mem
  ll : Obj
deriving DecidableEq

/-- new Node(value): the address of the node is the next allocation index. -/
def alloc (m : Mem) (value : Int) : Mem :=
  ⟨m.nodes ++ [⟨value, none⟩], m.freed⟩

/-- Dereference an address: none when the address is out of bounds or has
been freed (undefined behaviour in the source). -/
def read (m : Mem) (a : Nat) : Option Node :=
  if a ∈ m.freed then none else m.nodes[a]?

/-- Assign the next field of the node at an address; none on a freed or
invalid address. -/
def setNext (m : Mem) (a : Nat) (p : Option Nat) : Option Mem :=
  match read m a with
  | none => none
  | some n => some ⟨m.nodes.set a ⟨n.value, p⟩, m.freed⟩

/-- delete: mark the address as freed. -/
def dealloc (m : Mem) (a : Nat) : Mem :=
  ⟨m.nodes, a :: m.freed⟩

/-- The pointer stepping loop (prev moves to prev.next, k times): the pointer
after k steps, or none when an iteration dereferences null or freed memory. -/
def advance (m : Mem) : Option Nat → Nat → Option (Option Nat)
  | p, 0 => some p
  | none, _ + 1 => none
  | some a, k + 1 =>
    match read m a with
    | none => none
    | some n => advance m n.next k

/-- The constructor: a fresh heap with one node that is both head and tail. -/
def create (value : Int) : State :=
  ⟨⟨[⟨value, none⟩], []⟩, ⟨some 0, some 0, 1⟩⟩

/-- append: allocate, then either initialise head and tail or link the new
node after the current tail, dereferencing the tail pointer. -/
def append (st : State) (value : Int) : Option State :=
  let a := st.mem.nodes.length
  let m := alloc st.mem value
  match st.ll.head with
  | none => some ⟨m, ⟨some a, some a, st.ll.length + 1⟩⟩
  | some _ =>
    match st.ll.tail with
    | none => none
    | some t =>
      match setNext m t (some a) with
      | none => none
      | some m2 => some ⟨m2, ⟨st.ll.head, some a, st.ll.length + 1⟩⟩

/-- prepend: allocate, then either initialise head and tail or link the new
node in front of the current head. -/
def prepend (st : State) (value : Int) : Option State :=
  let a := st.mem.nodes.length
  let m := alloc st.mem value
  match st.ll.head with
  | none => some ⟨m, ⟨some a, some a, st.ll.length + 1⟩⟩
  | some h =>
    match setNext m a (some h) with
    | none => none
    | some m2 => some ⟨m2, ⟨some a, st.ll.tail, st.ll.length + 1⟩⟩

/-- insert(value, index) of the arrays-vectors variant: prepends when head is
null, appends when index equals length minus one, and otherwise advances
index steps from head and splices the new node after the node reached.  No
bounds check is performed anywhere. -/
def insert (st : State) (value : Int) (index : Int) : Option (State × Bool) :=
  match st.ll.head with
  | none => (prepend st value).map (fun s => (s, true))
  | some h =>
    if index = st.ll.length - 1 then (append st value).map (fun s => (s, true))
    else
      let a := st.mem.nodes.length
      let m := alloc st.mem value
      match advance m (some h) index.toNat with
      | none => none
      | some none => none
      | some (some p) =>
        match read m p with
        | none => none
        | some pn =>
          match setNext m a pn.next with
          | none => none
          | some m2 =>
            match setNext m2 p (some a) with
            | none => none
            | some m3 => some (⟨m3, ⟨st.ll.head, st.ll.tail, st.ll.length + 1⟩⟩, true)

/-- The console error printed by deleteFirst and deleteLast on an empty
list. -/
def emptyError : String := "Error: Cannot delete from an empty list."

/-- deleteFirst: prints an error on the empty list; otherwise head moves on,
head and tail are cleared when the list had a single node, and the old head
is deleted. -/
def deleteFirst (st : State) : Option (State × List String) :=
  match st.ll.head with
  | none => some (st, [emptyError])
  | some h =>
    match read st.mem h with
    | none => none
    | some n =>
      let ll2 : Obj :=
        match n.next with
        | none => ⟨none, none, st.ll.length - 1⟩
        | some h2 => ⟨some h2, st.ll.tail, st.ll.length - 1⟩
      some (⟨dealloc st.mem h, ll2⟩, [])

/-- The while loop of deleteLast: walk from an address until the next field
equals the tail pointer; none when the walk dereferences null or freed
memory or exhausts its fuel. -/
def findBeforeTail (m : Mem) (tl : Option Nat) : Nat → Nat → Option Nat
  | 0, _ => none
  | fuel + 1, a =>
    match read m a with
    | none => none
    | some n =>
      if n.next = tl then some a
      else
        match n.next with
        | none => none
        | some b => findBeforeTail m tl fuel b

/-- deleteLast: prints an error on the empty list; deletes the single node
when head equals tail; otherwise walks to the node before tail, deletes the
old tail and re-targets tail to its predecessor, whose next becomes null. -/
def deleteLast (st : State) : Option (State × List String) :=
  match st.ll.head with
  | none => some (st, [emptyError])
  | some h =>
    if st.ll.head = st.ll.tail then
      some (⟨dealloc st.mem h, ⟨none, none, st.ll.length - 1⟩⟩, [])
    else
      match findBeforeTail st.mem st.ll.tail (st.mem.nodes.length + 1) h with
      | none => none
      | some p =>
        let m2 :=
          match st.ll.tail with
          | none => st.mem
          | some t => dealloc st.mem t
        match setNext m2 p none with
        | none => none
        | some m3 => some (⟨m3, ⟨st.ll.head, some p, st.ll.length - 1⟩⟩, [])

/-- deletePosition(index) of the arrays-vectors variant: reports an empty
list or an out of bounds index with false; unlinks the head at index 0 and
otherwise the node after the node at index minus one.  The tail pointer is
never re-targeted, even when the removed node is the tail. -/
def deletePosition (st : State) (index : Int) : Option (State × Bool × List String) :=
  match st.ll.head with
  | none => some (st, false, ["Empty List"])
  | some h =>
    if index < 0 ∨ st.ll.length ≤ index then some (st, false, ["Index out of bounds"])
    else if index = 0 then
      match read st.mem h with
      | none => none
      | some n =>
        some (⟨dealloc st.mem h, ⟨n.next, st.ll.tail, st.ll.length - 1⟩⟩, true, [])
    else
      match advance st.mem (some h) (index - 1).toNat with
      | none => none
      | some none => none
      | some (some p) =>
        match read st.mem p with
        | none => none
        | some pn =>
          match pn.next with
          | none => none
          | some td =>
            match read st.mem td with
            | none => none
            | some tdn =>
              match setNext st.mem p tdn.next with
              | none => none
              | some m2 =>
                some (⟨dealloc m2 td, ⟨st.ll.head, st.ll.tail, st.ll.length - 1⟩⟩, true, [])

/-- The for loop of reverseLinkedList: exactly length iterations, each one
dereferencing temp, so a null temp mid-loop is a crash. -/
def revLoop (m : Mem) (before : Option Nat) (temp : Option Nat) : Nat → Option Mem
  | 0 => some m
  | k + 1 =>
    match temp with
    | none => none
    | some a =>
      match read m a with
      | none => none
      | some n =>
        match setNext m a before with
        | none => none
        | some m2 => revLoop m2 (some a) n.next k

/-- reverseLinkedList of the arrays-vectors variant: head and tail are
swapped up front, temp.next is read before the loop (a null dereference on
the empty list), then the loop redirects each next pointer backwards. -/
def reverseLinkedList (st : State) : Option State :=
  let t := st.ll.head
  match t with
  | none => none
  | some a =>
    match read st.mem a with
    | none => none
    | some _ =>
      match revLoop st.mem none t st.ll.length.toNat with
      | none => none
      | some m2 => some ⟨m2, ⟨st.ll.tail, t, st.ll.length⟩⟩

/-- The values reachable from head by following next, with fuel; none when
the walk dereferences freed memory or does not finish within the fuel. -/
def valsFrom (m : Mem) : Nat → Option Nat → Option (List Int)
  | 0, _ => none
  | _ + 1, none => some []
  | fuel + 1, some a =>
    match read m a with
    | none => none
    | some n => (valsFrom m fuel n.next).map (fun l => n.value :: l)

/-- The addresses reachable from head by following next. -/
def addrsFrom (m : Mem) : Nat → Option Nat → Option (List Nat)
  | 0, _ => none
  | _ + 1, none => some []
  | fuel + 1, some a =>
    match read m a with
    | none => none
    | some n => (addrsFrom m fuel n.next).map (fun l => a :: l)

/-- The value sequence of a state, read from head. -/
def chainVals (st : State) : Option (List Int) :=
  valsFrom st.mem (st.mem.nodes.length + 1) st.ll.head

/-- The address sequence of a state, read from head. -/
def chainAddrs (st : State) : Option (List Nat) :=
  addrsFrom st.mem (st.mem.nodes.length + 1) st.ll.head

end BasicList

/-- The two node list holding 10 and 20, built by the arrays-vectors variant
with create(10) followed by append(20). -/
def basicTwo : Option BasicList.State := BasicList.append (BasicList.create 10) 20

/-- The result of deletePosition(1) on the two node list. -/
def basicAfterDelPos : Option BasicList.State :=
  basicTwo.bind (fun s => (BasicList.deletePosition s 1).map (fun r => r.1))

/-- The state reached by deletePosition(1) on the two node list: the node at
address 1 is unlinked and freed, but the tail pointer still designates it. -/
def basicDelPosState : BasicList.State :=
  ⟨⟨[⟨10, none⟩, ⟨20, none⟩], [1]⟩, ⟨some 0, some 1, 1⟩⟩

/-- The result of deleteLast() on the two node list. -/
def basicAfterDelLast : Option BasicList.State :=
  basicTwo.bind (fun s => (BasicList.deleteLast s).map (fun r => r.1))

/-- The state reached by deleteLast() on the two node list: the node at
address 1 is freed and tail is re-targeted to its predecessor at address 0. -/
def basicDelLastState : BasicList.State :=
  ⟨⟨[⟨10, none⟩, ⟨20, none⟩], [1]⟩, ⟨some 0, some 0, 1⟩⟩

/-- The result of reverseLinkedList() after the buggy deletePosition(1). -/
def basicAfterReverse : Option BasicList.State :=
  basicAfterDelPos.bind BasicList.reverseLinkedList

/-- The state reached by that reversal: head and tail are swapped, so head
now designates the freed address 1 while length is still 1. -/
def basicRevState : BasicList.State :=
  ⟨⟨[⟨10, none⟩, ⟨20, none⟩], [1]⟩, ⟨some 1, some 0, 1⟩⟩

/-- The empty list of the arrays-vectors variant, reached by create(10)
followed by deleteFirst(). -/
def basicEmpty : BasicList.State :=
  ⟨⟨[⟨10, none⟩], [0]⟩, ⟨none, none, 0⟩⟩

/-- The result of insert(99, -1) on the one node list create(10): the index
is invalid, yet the call succeeds. -/
def basicBadInsert : Option (BasicList.State × Bool) :=
  BasicList.insert (BasicList.create 10) 99 (-1)

/-- The state reached by insert(99, -1): the new node was spliced in after
the head, at position 1. -/
def basicBadInsertState : BasicList.State :=
  ⟨⟨[⟨10, some 1⟩, ⟨99, none⟩], []⟩, ⟨some 0, some 0, 2⟩⟩

/-- Both branches of append extend the chain by one node at the end. -/
theorem HeaderList.append_eq (s : HeaderList.State) (v : Int) :
    HeaderList.append s v = ⟨s.chain ++ [v], s.length + 1⟩ := by
  obtain ⟨chain, len⟩ := s
  cases chain <;> rfl

/-- Both branches of prepend extend the chain by one node at the front. -/
theorem HeaderList.prepend_eq (s : HeaderList.State) (v : Int) :
    HeaderList.prepend s v = ⟨v :: s.chain, s.length + 1⟩ := by
  obtain ⟨chain, len⟩ := s
  cases chain <;> rfl

/-- The walk of deleteLast removes exactly one node. -/
theorem HeaderList.removeLastNode_length :
    ∀ (x : Int) (l : List Int),
      (HeaderList.removeLastNode (x :: l)).length + 1 = (x :: l).length := by
  intro x l
  induction l generalizing x with
  | nil => rfl
  | cons y rest ih => simpa [HeaderList.removeLastNode] using ih y

/-- The splice of insert adds exactly one node. -/
theorem HeaderList.insertAfter_length (k : Nat) (v : Int) (l : List Int) :
    (HeaderList.insertAfter k v l).length = l.length + 1 := by
  induction l generalizing k with
  | nil => cases k <;> rfl
  | cons x rest ih =>
    cases k with
    | zero => rfl
    | succ k => simpa [HeaderList.insertAfter] using ih k

/-- The unlink of deletePosition removes exactly one node when the walk
stays within the chain. -/
theorem HeaderList.removeAfter_length :
    ∀ (k : Nat) (l : List Int), k + 2 ≤ l.length →
      (HeaderList.removeAfter k l).length + 1 = l.length := by
  intro k
  induction k with
  | zero =>
    intro l h
    match l, h with
    | x :: y :: rest, _ => simp [HeaderList.removeAfter]
  | succ k ih =>
    intro l h
    match l, h with
    | x :: rest, h =>
      have : k + 2 ≤ rest.length := by simpa [Nat.succ_le_succ_iff] using h
      simpa [HeaderList.removeAfter] using ih rest this

/-- The reversal walk is list reversal onto an accumulator. -/
theorem HeaderList.reverseGo_eq :
    ∀ (l prev : List Int), HeaderList.reverseGo prev l = l.reverse ++ prev := by
  intro l
  induction l with
  | nil => intro prev; rfl
  | cons x rest ih =>
    intro prev
    simp [HeaderList.reverseGo, ih (x :: prev)]

/-- Unlinking right after the splice point undoes the splice, provided the
splice point lies within the chain. -/
theorem HeaderList.removeAfter_insertAfter :
    ∀ (k : Nat) (v : Int) (l : List Int), k + 1 ≤ l.length →
      HeaderList.removeAfter k (HeaderList.insertAfter k v l) = l := by
  intro k
  induction k with
  | zero =>
    intro v l h
    match l, h with
    | x :: rest, _ => rfl
  | succ k ih =>
    intro v l h
    match l, h with
    | x :: rest, h =>
      have : k + 1 ≤ rest.length := by simpa [Nat.succ_le_succ_iff] using h
      simp [HeaderList.insertAfter, HeaderList.removeAfter, ih v rest this]

/-- Every operation of the canonical variant preserves the agreement between
the cached length and the number of reachable nodes. -/
theorem HeaderList.applyOp_lengthInv (s : HeaderList.State) (op : HeaderList.Op)
    (h : HeaderList.lengthInv s) : HeaderList.lengthInv (HeaderList.applyOp s op) := by
  obtain ⟨chain, len⟩ := s
  simp only [HeaderList.lengthInv] at h ⊢
  cases op with
  | append v =>
    simp only [HeaderList.applyOp, HeaderList.append_eq]
    simp
    omega
  | prepend v =>
    simp only [HeaderList.applyOp, HeaderList.prepend_eq]
    simp
    omega
  | insert v i =>
    simp only [HeaderList.applyOp, HeaderList.insert]
    split_ifs with h1 h2 h3
    · simpa using h
    · simp [HeaderList.prepend_eq]; omega
    · simp [HeaderList.append_eq]; omega
    · simp [HeaderList.insertAfter_length]; omega
  | deleteFirst =>
    cases chain with
    | nil => simpa using h
    | cons x rest =>
      simp only [HeaderList.applyOp, HeaderList.deleteFirst]
      simp at h ⊢
      omega
  | deleteLast =>
    cases chain with
    | nil => simpa using h
    | cons x rest =>
      cases rest with
      | nil =>
        simp only [HeaderList.applyOp, HeaderList.deleteLast]
        simp at h ⊢
        omega
      | cons y t =>
        have hr := HeaderList.removeLastNode_length x (y :: t)
        show len - 1 = ((HeaderList.removeLastNode (x :: y :: t)).length : Int)
        omega
  | deletePosition i =>
    simp only [HeaderList.applyOp, HeaderList.deletePosition]
    split_ifs with h1 h2
    · simpa using h
    · cases chain with
      | nil => exact h
      | cons x rest =>
        simp only [HeaderList.deleteFirst]
        simp at h ⊢
        omega
    · have h1a : ¬(i < 0 ∨ i ≥ len) := h1
      have hb : (i - 1).toNat + 2 ≤ chain.length := by omega
      have hr := HeaderList.removeAfter_length (i - 1).toNat chain hb
      show len - 1 = ((HeaderList.removeAfter (i - 1).toNat chain).length : Int)
      omega
  | reverse =>
    simp only [HeaderList.applyOp, HeaderList.reverseLinkedList, HeaderList.reverseGo_eq]
    simp at h ⊢
    omega

/-- Running any operation sequence preserves the length invariant. -/
theorem HeaderList.run_lengthInv (ops : List HeaderList.Op) (s : HeaderList.State)
    (h : HeaderList.lengthInv s) : HeaderList.lengthInv (HeaderList.run ops s) := by
  induction ops generalizing s with
  | nil => exact h
  | cons op rest ih =>
    exact ih (HeaderList.applyOp s op) (HeaderList.applyOp_lengthInv s op h)

/-- The second component of the deleteLast walk is the value of the last
node of the chain. -/
theorem JsList.splitLast_snd :
    ∀ (l : List Int) (x : Int), some (JsList.splitLast x l).2 = (x :: l).getLast? := by
  intro l
  induction l with
  | nil => intro x; rfl
  | cons y rest ih =>
    intro x
    rw [List.getLast?_cons_cons]
    simpa [JsList.splitLast] using ih y

/-- Unlinking at the final position of an extended chain removes exactly the
appended node. -/
theorem HeaderList.removeAfter_append_last :
    ∀ (l : List Int) (x v : Int),
      HeaderList.removeAfter l.length (x :: (l ++ [v])) = x :: l := by
  intro l
  induction l with
  | nil => intro x v; rfl
  | cons y rest ih =>
    intro x v
    simpa [HeaderList.removeAfter] using ih y v

/-- C1: for every sequence of list operations (create, append, prepend,
insert, deleteFirst, deleteLast, deletePosition, reverse) of the canonical
implementation, the cached length field equals the number of nodes reachable
from head by following next links, that is the length of the chain. -/
theorem c1_length_reachable (ops : List HeaderList.Op) (v : Int) :
    (HeaderList.run ops (HeaderList.create v)).length
      = (((HeaderList.run ops (HeaderList.create v)).chain.length : Nat) : Int) :=
  HeaderList.run_lengthInv ops (HeaderList.create v) rfl

/-- C2: refuted on the arrays-vectors variant.  From create(10) and
append(20), the call deletePosition(1) removes and frees the tail node at
address 1 but never re-targets the tail pointer: in the resulting state the
length is 1 (positive), the only node reachable from head is the one at
address 0, yet tail still designates the freed address 1, so tail is not the
last node reachable from head. -/
theorem c2_tail_dangles_after_deletePosition :
    basicAfterDelPos = some basicDelPosState ∧
    basicDelPosState.ll.length = 1 ∧
    BasicList.chainAddrs basicDelPosState = some [0] ∧
    basicDelPosState.ll.tail = some 1 ∧
    basicDelPosState.ll.tail ≠ some 0 ∧
    1 ∈ basicDelPosState.mem.freed := by decide

/-- C3: refuted on the arrays-vectors variant.  Its insert has no bounds
check: insert(99, -1) on the one node list create(10), an index outside the
valid interval, returns true and splices the new node in after the head, so
the value sequence becomes 10, 99 instead of staying 10 with an out of range
failure. -/
theorem c3_insert_accepts_invalid_index :
    basicBadInsert = some (basicBadInsertState, true) ∧
    BasicList.chainVals basicBadInsertState = some [10, 99] ∧
    BasicList.chainVals (BasicList.create 10) = some [10] := by decide

/-- C4: refuted on the arrays-vectors variant.  On the two node list built
by create(10) and append(20), deleteLast re-targets tail to the predecessor
at address 0, but deletePosition(1), the last valid index, leaves tail on
the freed address 1: the two results agree on the value sequence and the
length but differ in the tail pointer, so the operations are not
identical. -/
theorem c4_deletePosition_differs_from_deleteLast :
    basicAfterDelPos = some basicDelPosState ∧
    basicAfterDelLast = some basicDelLastState ∧
    BasicList.chainVals basicDelPosState = BasicList.chainVals basicDelLastState ∧
    basicDelPosState.ll.length = basicDelLastState.ll.length ∧
    basicDelPosState.ll.tail ≠ basicDelLastState.ll.tail := by decide

/-- C5 counterexample: in the arrays-vectors variant, applying reverse twice
to the empty list does not yield the original list: the very first reverse
dereferences a null pointer, so the composition produces no list at all. -/
theorem c5_counterexample :
    (BasicList.reverseLinkedList basicEmpty).bind BasicList.reverseLinkedList
      ≠ some basicEmpty := by decide

/-- C5 as amended: reverse is an involution, restoring the same value
sequence and the same length, for every list of the canonical
implementation; in the arrays-vectors variant the involution fails on the
empty list because its reverse dereferences a null pointer there. -/
theorem c5_reverse_involution :
    (∀ s : HeaderList.State,
      HeaderList.reverseLinkedList (HeaderList.reverseLinkedList s) = s) ∧
    (BasicList.reverseLinkedList basicEmpty).bind BasicList.reverseLinkedList
      = none := by
  constructor
  · intro s
    obtain ⟨chain, len⟩ := s
    simp [HeaderList.reverseLinkedList, HeaderList.reverseGo_eq]
  · rfl

/-- C6: refuted on the arrays-vectors variant.  Reaching the empty list by
create(10) followed by deleteFirst() and then calling reverseLinkedList
crashes: the function reads temp.next while temp, copied from the null head,
is null, instead of being a no-op; the claim of no failure condition on the
empty list fails. -/
theorem c6_reverse_crashes_on_empty :
    (BasicList.deleteFirst (BasicList.create 10)).map (fun r => r.1)
      = some basicEmpty ∧
    BasicList.reverseLinkedList basicEmpty = none := by decide

/-- C7 counterexample: in the canonical variant, deleteFirst and deleteLast
on the empty list leave the state unchanged, print nothing (the second
component, the console output, is empty) and, being void functions, return
no status either: the empty-list failure is silently swallowed rather than
reported to the caller. -/
theorem c7_counterexample :
    HeaderList.deleteFirst ⟨[], 0⟩ = (⟨[], 0⟩, []) ∧
    HeaderList.deleteLast ⟨[], 0⟩ = (⟨[], 0⟩, []) := by decide

/-- C7 as amended: on every empty list, deleteFirst and deleteLast leave the
list unchanged and do not crash; the JavaScript implementation reports the
condition with a console warning and a null return and the arrays-vectors
variant prints an error message, but the canonical variant returns silently
with no report at all. -/
theorem c7_empty_delete_behaviour :
    (∀ s : HeaderList.State, s.chain = [] →
      HeaderList.deleteFirst s = (s, []) ∧ HeaderList.deleteLast s = (s, [])) ∧
    (∀ s : JsList.State, s.chain = [] →
      JsList.deleteFirst s = (s, none, [JsList.emptyWarning]) ∧
      JsList.deleteLast s = (s, none, [JsList.emptyWarning])) ∧
    (∀ st : BasicList.State, st.ll.head = none →
      BasicList.deleteFirst st = some (st, [BasicList.emptyError]) ∧
      BasicList.deleteLast st = some (st, [BasicList.emptyError])) := by
  refine ⟨?_, ?_, ?_⟩
  · rintro ⟨chain, len⟩ h
    cases h
    exact ⟨rfl, rfl⟩
  · rintro ⟨chain, len⟩ h
    cases h
    exact ⟨rfl, rfl⟩
  · rintro ⟨mem, hd, tl, len⟩ h
    cases h
    exact ⟨rfl, rfl⟩

/-- C7 witness: the amended statement applied to concrete empty lists of the
three implementations. -/
theorem c7_empty_delete_behaviour_witness :
    HeaderList.deleteFirst ⟨[], 0⟩ = ((⟨[], 0⟩ : HeaderList.State), []) ∧
    JsList.deleteFirst ⟨[], 0⟩
      = ((⟨[], 0⟩ : JsList.State), none, [JsList.emptyWarning]) ∧
    BasicList.deleteFirst basicEmpty = some (basicEmpty, [BasicList.emptyError]) :=
  ⟨(c7_empty_delete_behaviour.1 ⟨[], 0⟩ rfl).1,
   (c7_empty_delete_behaviour.2.1 ⟨[], 0⟩ rfl).1,
   (c7_empty_delete_behaviour.2.2 basicEmpty rfl).1⟩

/-- C8: refuted on the arrays-vectors variant.  On the one node list
create(10), insert(99, 1), where 1 is the length, does not behave as
append(99): because the upper boundary of insert is index equal to length
minus one, the call falls through to the traversal, walks past the last node
and dereferences a null pointer, while append(99) yields the sequence
10, 99. -/
theorem c8_insert_at_length_crashes :
    BasicList.insert (BasicList.create 10) 99 1 = none ∧
    (BasicList.append (BasicList.create 10) 99).bind BasicList.chainVals
      = some [10, 99] := by decide

/-- C9: in the canonical implementation, for every list whose cached length
agrees with its chain, every value v and every valid insert index i between
0 and length, insert(v, i) followed by deletePosition(i) restores the prior
list: the same value sequence and the same length. -/
theorem c9_insert_delete_roundtrip (s : HeaderList.State) (v i : Int)
    (hs : s.length = (s.chain.length : Int)) (h0 : 0 ≤ i) (hl : i ≤ s.length) :
    (HeaderList.deletePosition ((HeaderList.insert s v i).1) i).1 = s := by
  rw [HeaderList.insert, if_neg (by omega : ¬(i < 0 ∨ i > s.length))]
  by_cases hz : i = 0
  · subst hz
    rw [if_pos rfl, HeaderList.prepend_eq]
    dsimp only
    rw [HeaderList.deletePosition]
    dsimp only
    rw [if_neg (by omega : ¬((0 : Int) < 0 ∨ (0 : Int) ≥ s.length + 1)), if_pos rfl]
    dsimp only
    simp only [HeaderList.deleteFirst]
    have he : s.length + 1 - 1 = s.length := by omega
    rw [he]
  · rw [if_neg hz]
    by_cases he : i = s.length
    · rw [if_pos he, HeaderList.append_eq]
      dsimp only
      rw [HeaderList.deletePosition]
      dsimp only
      rw [if_neg (by omega : ¬(i < 0 ∨ i ≥ s.length + 1)), if_neg hz]
      dsimp only
      obtain ⟨x, t, hxt⟩ : ∃ x t, s.chain = x :: t := by
        cases hc : s.chain with
        | nil =>
          exfalso
          rw [hc] at hs
          simp at hs
          omega
        | cons x t => exact ⟨x, t, rfl⟩
      rw [hxt]
      have hnat : (i - 1).toNat = t.length := by
        rw [hxt] at hs
        simp at hs
        omega
      rw [hnat]
      have hca : (x :: t) ++ [v] = x :: (t ++ [v]) := by simp
      rw [hca, HeaderList.removeAfter_append_last]
      have hlen : s.length + 1 - 1 = s.length := by omega
      rw [hlen, ← hxt]
    · rw [if_neg he]
      dsimp only
      rw [HeaderList.deletePosition]
      dsimp only
      rw [if_neg (by omega : ¬(i < 0 ∨ i ≥ s.length + 1)), if_neg hz]
      dsimp only
      have hb : (i - 1).toNat + 1 ≤ s.chain.length := by omega
      rw [HeaderList.removeAfter_insertAfter (i - 1).toNat v s.chain hb]
      have hlen : s.length + 1 - 1 = s.length := by omega
      rw [hlen]

/-- C9 witness: the round trip on the concrete list 20, 10 of scenario 6 of
the spec, with value 99 at index 1. -/
theorem c9_insert_delete_roundtrip_witness :
    (HeaderList.deletePosition
        ((HeaderList.insert ⟨[20, 10], 2⟩ 99 1).1) 1).1
      = (⟨[20, 10], 2⟩ : HeaderList.State) :=
  c9_insert_delete_roundtrip ⟨[20, 10], 2⟩ 99 1 (by decide) (by decide) (by decide)

/-- C10: the JavaScript deleteFirst and deleteLast warn and return null on
the empty list, leaving it unchanged, and on a non-empty list return the
value of the removed node: the head value for deleteFirst and the last value
for deleteLast. -/
theorem c10_js_delete_return_values (s : JsList.State) :
    (s.chain = [] →
      JsList.deleteFirst s = (s, none, [JsList.emptyWarning]) ∧
      JsList.deleteLast s = (s, none, [JsList.emptyWarning])) ∧
    (s.chain ≠ [] →
      (JsList.deleteFirst s).2.1 = s.chain.head? ∧
      (JsList.deleteLast s).2.1 = s.chain.getLast?) := by
  obtain ⟨chain, len⟩ := s
  cases chain with
  | nil => exact ⟨fun _ => ⟨rfl, rfl⟩, fun h => absurd rfl h⟩
  | cons x rest =>
    refine ⟨fun h => by simp at h, fun _ => ⟨rfl, ?_⟩⟩
    cases rest with
    | nil => simp [JsList.deleteLast]
    | cons y t =>
      show some (JsList.splitLast x (y :: t)).2 = (x :: y :: t).getLast?
      exact JsList.splitLast_snd (y :: t) x

/-- C10 witness: deleteFirst and deleteLast on the concrete list 7, 8 return
the removed values 7 and 8. -/
theorem c10_js_delete_return_values_witness :
    (JsList.deleteFirst ⟨[7, 8], 2⟩).2.1 = some 7 ∧
    (JsList.deleteLast ⟨[7, 8], 2⟩).2.1 = some 8 := by
  have h := (c10_js_delete_return_values ⟨[7, 8], 2⟩).2 (by decide)
  refine ⟨h.1.trans ?_, h.2.trans ?_⟩
  · rfl
  · simp
